import Mathlib

/-!
Shallow embedding of `cgroupspy/interfaces.py`: the declarative family of
cgroup file-interface accessors and their encode/decode contracts.

Modelling conventions
* Raw file text is `Text := List Char`; a Python `str`/`bytes` is its
  character list.
* A Python `int` is `Int`; `str(n)` is `intToText n` and `int(s)` is
  `pyInt s` (decimal notation with optional sign and surrounding
  whitespace, as the code relies on).
* Exceptions are `Except SpecError`: the `RuntimeError` raised at
  construction time is `configError`, the `RuntimeError` raised at access
  time is `accessError`, and a `ValueError` raised while parsing raw text
  is `decodeError` (the spec's error taxonomy).
* An accessor is a `FileInterface` record; the owner collaborator's
  `get_property` is a function from filename to contents, and each
  `read`/`write` additionally returns the ordered list of I/O calls it
  made on the owner, so that frame properties (no I/O, no mutation) are
  directly statable.
-/

abbrev Text := List Char

/-- Error taxonomy of the accessor layer. -/
inductive SpecError where
  | configError
  | accessError
  | decodeError
deriving DecidableEq

instance {ε α : Type} [DecidableEq ε] [DecidableEq α] : DecidableEq (Except ε α) :=
  fun a b =>
    match a, b with
    | .error e₁, .error e₂ =>
      if h : e₁ = e₂ then .isTrue (by rw [h]) else .isFalse (fun he => h (Except.error.inj he))
    | .ok v₁, .ok v₂ =>
      if h : v₁ = v₂ then .isTrue (by rw [h]) else .isFalse (fun he => h (Except.ok.inj he))
    | .error _, .ok _ => .isFalse (fun he => Except.noConfusion he)
    | .ok _, .error _ => .isFalse (fun he => Except.noConfusion he)

/-- The decimal digit character for `d < 10`, as produced by Python `str`. -/
def digitChar (d : Nat) : Char := Char.ofNat (48 + d)

/-- Numeric value of a decimal digit character, as consumed by Python `int`. -/
def digitVal (c : Char) : Nat := c.toNat - 48

/-- Little-endian base-`b` digits of a natural number, with explicit
structural fuel in the first argument; `natDigits` supplies enough fuel. -/
def natDigitsAux (b : Nat) : Nat → Nat → List Nat
  | 0, _ => []
  | fuel + 1, n => if n = 0 then [] else n % b :: natDigitsAux b fuel (n / b)

/-- Little-endian base-`b` digits (`n` itself is always enough fuel). -/
def natDigits (b n : Nat) : List Nat := natDigitsAux b n n

/-- Python `str` of a natural number: decimal digits, most significant first. -/
def natToText (n : Nat) : Text :=
  if n = 0 then ['0'] else ((natDigits 10 n).map digitChar).reverse

/-- Python `str` of an integer. -/
def intToText (i : Int) : Text :=
  if i < 0 then '-' :: natToText i.natAbs else natToText i.toNat

/-- Python `str.strip()`: drop leading and trailing whitespace. -/
def pyStrip (l : Text) : Text :=
  ((l.dropWhile Char.isWhitespace).reverse.dropWhile Char.isWhitespace).reverse

/-- The digit part of Python `int(s)`: a nonempty run of decimal digits. -/
def parseDigitsNat (ds : Text) : Option Nat :=
  if ds = [] then none
  else if ds.all Char.isDigit then
    some (Nat.ofDigits 10 ((ds.map digitVal).reverse))
  else none

/-- Python `int(s)` on text: strip whitespace, allow one leading sign, then
a nonempty run of decimal digits; anything else raises `ValueError`. -/
def pyInt (t : Text) : Option Int :=
  match pyStrip t with
  | [] => none
  | c :: cs =>
    if c = '-' then (parseDigitsNat cs).map (fun n => -(n : Int))
    else if c = '+' then (parseDigitsNat cs).map (fun n => (n : Int))
    else (parseDigitsNat (c :: cs)).map (fun n => (n : Int))

/-- `pyInt` with failure surfaced as a decode error. -/
def pyIntE (t : Text) : Except SpecError Int :=
  match pyInt t with
  | some v => .ok v
  | none => .error .decodeError

/-- Python `str.split(sep)` for a single-character separator. -/
def splitOnChar (c : Char) : List Char → List (List Char)
  | [] => [[]]
  | a :: rest =>
    match splitOnChar c rest with
    | [] => [[]]
    | g :: gs => if a = c then [] :: g :: gs else (a :: g) :: gs

/-- Python `sep.join(parts)` for a single-character separator. -/
def joinWith (sep : Char) : List (List Char) → List Char
  | [] => []
  | [p] => p
  | p :: ps => p ++ sep :: joinWith sep ps

/-- Python `str.split()` with no arguments: split on runs of whitespace,
discarding empty groups; `acc` holds the current group, reversed. -/
def pySplitWsAux : List Char → List Char → List (List Char)
  | [], acc => if acc = [] then [] else [acc.reverse]
  | a :: rest, acc =>
    if a.isWhitespace then
      if acc = [] then pySplitWsAux rest []
      else acc.reverse :: pySplitWsAux rest []
    else pySplitWsAux rest (a :: acc)

/-- Python `str.split()` with no arguments. -/
def pySplitWs (l : Text) : List Text := pySplitWsAux l []

/-- Python `res[key] = val` on a dict modelled as an insertion-ordered
association list: update in place if the key exists, else append. -/
def pyDictInsert (d : List (Text × Int)) (k : Text) (v : Int) : List (Text × Int) :=
  if d.any (fun p => decide (p.1 = k)) then
    d.map (fun p => if p.1 = k then (k, v) else p)
  else d ++ [(k, v)]

/-- Python `range(a, b)` as a list of integers. -/
def intRange (a b : Int) : List Int := (List.range (b - a).toNat).map (fun i => a + i)

/-- One I/O call made by an accessor on its owner. -/
inductive IOOp where
  | get : Text → IOOp
  | set : Text → Text → IOOp
deriving DecidableEq

/-- A `BaseFileInterface` descriptor (or one of its subclasses) as configured
at construction time: the bound filename, the two access-mode flags, and the
subclass's `sanitize_get`/`sanitize_set` hooks.  `α` is the type of values
written through the accessor, `β` the type of decoded values; raw file
contents are `Text`.  `sanitize_set` returning `none` models the Python hook
returning `None` (the no-op write signal in `__set__`). -/
structure FileInterface (α β : Type) where
  filename : Text
  readonly : Bool
  writeonly : Bool
  sanitize_get : Text → Except SpecError β
  sanitize_set : α → Except SpecError (Option Text)

/-- `BaseFileInterface.__get__`: fail if the accessor is write-only,
otherwise fetch the raw text with the owner's `get_property` (the function
`g`) and decode it.  The second component records the I/O calls made on the
owner, in order. -/
def FileInterface.read (i : FileInterface α β) (g : Text → Text) :
    Except SpecError β × List IOOp :=
  if i.writeonly then (.error .accessError, [])
  else (i.sanitize_get (g i.filename), [.get i.filename])

/-- `BaseFileInterface.__set__`: fail if the accessor is read-only,
otherwise encode the value and, unless the encoder returned `None`, persist
the text via the owner's `set_property`. -/
def FileInterface.write (i : FileInterface α β) (v : α) :
    Except SpecError Unit × List IOOp :=
  if i.readonly then (.error .accessError, [])
  else
    match i.sanitize_set v with
    | .error e => (.error e, [])
    | .ok none => (.ok (), [])
    | .ok (some text) => (.ok (), [.set i.filename text])

/-- Effect of a list of I/O calls on an owner's backing store (a map from
filename to contents): `get` changes nothing, `set` overwrites one file. -/
def applyOps (s : Text → Text) : List IOOp → (Text → Text)
  | [] => s
  | IOOp.get _ :: rest => applyOps s rest
  | IOOp.set fn c :: rest => applyOps (fun f => if f = fn then c else s f) rest

/-- `BaseFileInterface.__init__`: raise if both flags were passed truthy,
else record the flags, falling back to the class-level defaults `clsRo`,
`clsWo` (`readonly = readonly or self.readonly`).  The `None` default of
each keyword argument is modelled as `false`; both arguments are only ever
used for truthiness. -/
def baseInit (clsRo clsWo : Bool) (sg : Text → Except SpecError β)
    (ss : α → Except SpecError (Option Text)) (fn : Text) (ro wo : Bool) :
    Except SpecError (FileInterface α β) :=
  if ro && wo then .error .configError
  else .ok ⟨fn, ro || clsRo, wo || clsWo, sg, ss⟩

/-- `StrFile`: inherits the identity `sanitize_get`. -/
def StrFile.sanitize_get (t : Text) : Except SpecError Text := .ok t

/-- `StrFile`: inherits the identity `sanitize_set` (writing `None` skips). -/
def StrFile.sanitize_set (v : Option Text) : Except SpecError (Option Text) := .ok v

/-- `StrFile(filename, readonly, writeonly)`. -/
def strFileInit (fn : Text) (ro wo : Bool) :
    Except SpecError (FileInterface (Option Text) Text) :=
  baseInit false false StrFile.sanitize_get StrFile.sanitize_set fn ro wo

/-- `FlagFile.sanitize_get`: `bool(int(value))`. -/
def FlagFile.sanitize_get (t : Text) : Except SpecError Bool := do
  let v ← pyIntE t
  .ok (decide (v ≠ 0))

/-- `FlagFile.sanitize_set`: `int(bool(value))`, then written as text. -/
def FlagFile.sanitize_set (b : Bool) : Except SpecError (Option Text) :=
  .ok (some (intToText (if b then 1 else 0)))

/-- `ListFile.sanitize_get`: `value.split()`.  `ListFile` has the
class-level default `readonly = True`. -/
def ListFile.sanitize_get (t : Text) : Except SpecError (List Text) := .ok (pySplitWs t)

/-- `IntegerFile.sanitize_get`: parse an integer; the sentinel `-1` decodes
to the absent value (`None`). -/
def IntegerFile.sanitize_get (t : Text) : Except SpecError (Option Int) := do
  let v ← pyIntE t
  .ok (if v = -1 then none else some v)

/-- The text produced by `IntegerFile.sanitize_set`: the absent value
(`None`) encodes as the sentinel `-1`, any integer as its decimal text. -/
def IntegerFile.encodeText (v : Option Int) : Text := intToText (v.getD (-1))

/-- `IntegerFile.sanitize_set` (never the no-op signal). -/
def IntegerFile.sanitize_set (v : Option Int) : Except SpecError (Option Text) :=
  .ok (some (IntegerFile.encodeText v))

/-- Number of characters after the `0x` prefix of Python `hex(v)`, i.e.
`len(hex(v)) - 2`: the hex digits of `abs(v)` (one digit for zero), plus one
for the sign character when `v < 0`. -/
def hexDigitCount (v : Int) : Nat :=
  (if v < 0 then 1 else 0) +
    (if v.natAbs = 0 then 1 else (natDigits 16 v.natAbs).length)

/-- The bit count used by `BitFieldFile.sanitize_get`:
`l = (len(hex(v)) - 2) * 4` rounded up to the next multiple of 8 by
`l += 7 - (l - 1) % 8`. -/
def BitFieldFile.bitLength (v : Int) : Nat :=
  4 * hexDigitCount v + (7 - (4 * hexDigitCount v - 1) % 8)

/-- `BitFieldFile.sanitize_get`: parse an integer, compute the bit count
from the hex-digit count rounded up to a multiple of 8, and return that many
bits, least significant first.  Python `bool((v >> i) & 1)` on a possibly
negative `v` is floor division by `2 ^ i` followed by a nonnegative
`mod 2`. -/
def BitFieldFile.sanitize_get (t : Text) : Except SpecError (List Bool) := do
  let v ← pyIntE t
  .ok ((List.range (BitFieldFile.bitLength v)).map
    (fun i => decide ((v.fdiv (2 ^ i)).emod 2 = 1)))

/-- The integer whose bit `i` is `v.getD i false` — the value computed by
`BitFieldFile.sanitize_set` on a boolean sequence
(`sum(int(bool(value[i])) << i for i in range(len(value)))`). -/
def natOfBits : List Bool → Nat
  | [] => 0
  | b :: bs => (if b then 1 else 0) + 2 * natOfBits bs

/-- The line loop of `DictFile.sanitize_get`: each line must split on
whitespace into exactly a key and a value (`key, val = el.split()`, a
`ValueError` otherwise), and the value must parse as an integer;
`res[key] = int(val)`. -/
def dictParseLines : List Text → List (Text × Int) → Except SpecError (List (Text × Int))
  | [], res => .ok res
  | el :: els, res =>
    match pySplitWs el with
    | [k, v] => do
      let n ← pyIntE v
      dictParseLines els (pyDictInsert res k n)
    | _ => .error .decodeError

/-- `DictFile.sanitize_get`: split on newlines and parse `key value` lines
into an insertion-ordered mapping. -/
def DictFile.sanitize_get (t : Text) : Except SpecError (List (Text × Int)) :=
  dictParseLines (splitOnChar '\n' t) []

/-- `DictFile.sanitize_set`: join the dict's keys with commas (iterating a
Python dict yields its keys); the values are discarded.  The
`isinstance(value, dict)` guard cannot fail in this typed model. -/
def DictFile.sanitize_set (d : List (Text × Int)) : Except SpecError (Option Text) :=
  .ok (some (joinWith ',' (d.map Prod.fst)))

/-- `DictAndFlagFile.sanitize_get`: same line format as `DictFile`. -/
def DictAndFlagFile.sanitize_get (t : Text) : Except SpecError (List (Text × Int)) :=
  dictParseLines (splitOnChar '\n' t) []

/-- `DictAndFlagFile.sanitize_set`: `int(bool(value))`, as text. -/
def DictAndFlagFile.sanitize_set (b : Bool) : Except SpecError (Option Text) :=
  .ok (some (intToText (if b then 1 else 0)))

/-- One comma group of `CommaDashSetFile.sanitize_get`: a group containing a
dash must split into exactly `start-end` (a `ValueError` otherwise) and
expands to `range(int(start), int(end) + 1)`; an empty group is skipped; any
other group is a single integer. -/
def parseGroup (g : Text) : Except SpecError (List Int) :=
  if '-' ∈ g then
    match splitOnChar '-' g with
    | [s, e] => do
      let a ← pyIntE s
      let b ← pyIntE e
      .ok (intRange a (b + 1))
    | _ => .error .decodeError
  else if g = [] then .ok []
  else do
    let n ← pyIntE g
    .ok [n]

/-- The element-collecting loop of `CommaDashSetFile.sanitize_get`. -/
def commaDashGroups : List Text → Except SpecError (List Int)
  | [] => .ok []
  | g :: gs => do
    let xs ← parseGroup g
    let rest ← commaDashGroups gs
    .ok (xs ++ rest)

/-- `CommaDashSetFile.sanitize_get`: strip, split on commas, expand every
group, and collect the elements into a set. -/
def CommaDashSetFile.sanitize_get (t : Text) : Except SpecError (Finset Int) := do
  let elems ← commaDashGroups (splitOnChar ',' (pyStrip t))
  .ok elems.toFinset

/-- The text produced by `CommaDashSetFile.sanitize_set` on a collection
(given here by an enumeration of its elements): a single space when it is
empty, else the elements joined with commas — no re-compaction into
ranges. -/
def commaDashEncode (l : List Int) : Text :=
  if l = [] then [' '] else joinWith ',' (l.map intToText)

/-- `CommaDashSetFile.sanitize_set` (never the no-op signal). -/
def CommaDashSetFile.sanitize_set (l : List Int) : Except SpecError (Option Text) :=
  .ok (some (commaDashEncode l))

/-- A content-type instance; its `raw` text is its single-line
serialization. -/
structure ContentValue where
  raw : Text
deriving DecidableEq

/-- Modelled from the spec: the `contenttypes` module (`BaseContentType` and
its subclasses) is not under `src/`.  A content-type class is modelled as
the family-membership marker consulted by the
`issubclass(contenttype, BaseContentType)` check in `TypedFile.__init__`,
together with the `from_string` line constructor the spec requires of the
collaborator. -/
structure ContentTypeClass where
  isSubclassOfBase : Bool
  from_string : Text → ContentValue

/-- Result of `TypedFile.sanitize_get`: one-or-none when `many` is false, a
list when `many` is true. -/
inductive TypedValue where
  | single : Option ContentValue → TypedValue
  | multi : List ContentValue → TypedValue
deriving DecidableEq

/-- `TypedFile.sanitize_get`: one content instance per non-empty line;
return the first instance (or absent) unless configured for many. -/
def TypedFile.sanitize_get (ct : ContentTypeClass) (many : Bool) (t : Text) :
    Except SpecError TypedValue :=
  let res := ((splitOnChar '\n' t).filter (fun l => decide (l ≠ []))).map ct.from_string
  if many then .ok (.multi res) else .ok (.single res.head?)

/-- `TypedFile.sanitize_set`: pass an existing instance through, otherwise
build one with `from_string`; the instance is persisted as its
serialization. -/
def TypedFile.sanitize_set (ct : ContentTypeClass) (v : ContentValue ⊕ Text) :
    Except SpecError (Option Text) :=
  match v with
  | .inl cv => .ok (some cv.raw)
  | .inr s => .ok (some (ct.from_string s).raw)

/-- `TypedFile.__init__`: reject a content type outside the recognized
family, then defer to `BaseFileInterface.__init__`. -/
def typedFileInit (fn : Text) (ct : ContentTypeClass) (ro wo many : Bool) :
    Except SpecError (FileInterface (ContentValue ⊕ Text) TypedValue) :=
  if ct.isSubclassOfBase = false then .error .configError
  else baseInit false false (TypedFile.sanitize_get ct many) (TypedFile.sanitize_set ct) fn ro wo

/-- A write-only accessor instance (a write-only `StrFile`). -/
def sampleWriteonly : FileInterface (Option Text) Text :=
  ⟨"w".data, false, true, StrFile.sanitize_get, StrFile.sanitize_set⟩

/-- A read-only accessor instance (a read-only `StrFile`). -/
def sampleReadonly : FileInterface (Option Text) Text :=
  ⟨"r".data, true, false, StrFile.sanitize_get, StrFile.sanitize_set⟩

/-- A plain read-write `StrFile` instance. -/
def sampleStrFile : FileInterface (Option Text) Text :=
  ⟨"s".data, false, false, StrFile.sanitize_get, StrFile.sanitize_set⟩

theorem except_bind_ok {α β : Type} (a : α) (f : α → Except SpecError β) :
    (Except.ok a >>= f) = f a := rfl

theorem digitChar_facts : ∀ d : Nat, d < 10 →
    (digitChar d).isDigit = true ∧ (digitChar d).isWhitespace = false ∧
    digitChar d ≠ ',' ∧ digitChar d ≠ '-' ∧ digitChar d ≠ '+' ∧
    digitChar d ≠ '\n' ∧ digitVal (digitChar d) = d := by decide

theorem natDigitsAux_eq_digits {b : Nat} (hb : 2 ≤ b) :
    ∀ fuel n, n ≤ fuel → natDigitsAux b fuel n = Nat.digits b n := by
  intro fuel
  induction fuel with
  | zero =>
    intro n hn
    interval_cases n
    simp [natDigitsAux]
  | succ fuel ih =>
    intro n hn
    by_cases h : n = 0
    · simp [natDigitsAux, h]
    · have hd : n / b ≤ fuel := by
        have := Nat.div_lt_self (Nat.pos_of_ne_zero h) (by omega : 1 < b)
        omega
      simp only [natDigitsAux, if_neg h]
      rw [ih _ hd, ← Nat.digits_def' (by omega : 1 < b) (Nat.pos_of_ne_zero h)]

theorem natDigits_eq {b : Nat} (hb : 2 ≤ b) (n : Nat) : natDigits b n = Nat.digits b n :=
  natDigitsAux_eq_digits hb n n le_rfl

theorem mem_natToText {c : Char} {n : Nat} (h : c ∈ natToText n) :
    ∃ d, d < 10 ∧ c = digitChar d := by
  unfold natToText at h
  by_cases h0 : n = 0
  · rw [if_pos h0] at h
    simp only [List.mem_singleton] at h
    exact ⟨0, by omega, by rw [h]; decide⟩
  · rw [if_neg h0, List.mem_reverse] at h
    obtain ⟨d, hd, rfl⟩ := List.mem_map.mp h
    refine ⟨d, ?_, rfl⟩
    rw [natDigits_eq (by omega)] at hd
    exact Nat.digits_lt_base (by omega) hd

theorem natToText_ne_nil (n : Nat) : natToText n ≠ [] := by
  unfold natToText
  by_cases h0 : n = 0
  · simp [h0]
  · rw [if_neg h0]
    simp only [ne_eq, List.reverse_eq_nil_iff, List.map_eq_nil_iff]
    rw [natDigits_eq (by omega)]
    exact Nat.digits_ne_nil_iff_ne_zero.mpr h0

theorem natToText_char_facts {c : Char} {n : Nat} (h : c ∈ natToText n) :
    c.isDigit = true ∧ c.isWhitespace = false ∧ c ≠ ',' ∧ c ≠ '-' ∧ c ≠ '+' ∧ c ≠ '\n' := by
  obtain ⟨d, hd, rfl⟩ := mem_natToText h
  have hf := digitChar_facts d hd
  exact ⟨hf.1, hf.2.1, hf.2.2.1, hf.2.2.2.1, hf.2.2.2.2.1, hf.2.2.2.2.2.1⟩

theorem dropWhile_eq_self_of_none {p : Char → Bool} {l : Text}
    (h : ∀ c ∈ l, p c = false) : l.dropWhile p = l := by
  cases l with
  | nil => rfl
  | cons a l => simp [List.dropWhile_cons, h a (by simp)]

theorem pyStrip_eq_self {l : Text} (h : ∀ c ∈ l, c.isWhitespace = false) : pyStrip l = l := by
  unfold pyStrip
  rw [dropWhile_eq_self_of_none h,
    dropWhile_eq_self_of_none (fun c hc => h c (List.mem_reverse.mp hc))]
  exact List.reverse_reverse l

theorem digitVal_digitChar {d : Nat} (hd : d < 10) : digitVal (digitChar d) = d :=
  (digitChar_facts d hd).2.2.2.2.2.2

theorem parseDigitsNat_natToText (n : Nat) : parseDigitsNat (natToText n) = some n := by
  by_cases h0 : n = 0
  · subst h0; decide
  · unfold parseDigitsNat
    rw [if_neg (natToText_ne_nil n), if_pos ?hall]
    case hall =>
      rw [List.all_eq_true]
      intro c hc
      exact (natToText_char_facts hc).1
    congr 1
    conv_lhs => rw [natToText, if_neg h0]
    rw [List.map_reverse, List.reverse_reverse, List.map_map]
    have hmap : ∀ d ∈ natDigits 10 n, (digitVal ∘ digitChar) d = d := by
      intro d hd
      have hlt : d < 10 := by
        rw [natDigits_eq (by omega)] at hd
        exact Nat.digits_lt_base (by omega) hd
      simpa using digitVal_digitChar hlt
    rw [List.map_congr_left hmap, List.map_id', natDigits_eq (by omega), Nat.ofDigits_digits]

theorem pyInt_natToText (n : Nat) : pyInt (natToText n) = some ((n : Int)) := by
  have hstrip : pyStrip (natToText n) = natToText n :=
    pyStrip_eq_self (fun c hc => (natToText_char_facts hc).2.1)
  unfold pyInt
  rw [hstrip]
  rcases hne : natToText n with _ | ⟨c, cs⟩
  · exact absurd hne (natToText_ne_nil n)
  · have hc : c ∈ natToText n := by rw [hne]; exact List.mem_cons_self c cs
    have hf := natToText_char_facts hc
    simp only [if_neg hf.2.2.2.1, if_neg hf.2.2.2.2.1, ← hne, parseDigitsNat_natToText]
    rfl

theorem pyInt_intToText (i : Int) : pyInt (intToText i) = some i := by
  unfold intToText
  by_cases hneg : i < 0
  · rw [if_pos hneg]
    have hstrip : pyStrip ('-' :: natToText i.natAbs) = '-' :: natToText i.natAbs := by
      apply pyStrip_eq_self
      intro c hc
      rcases List.mem_cons.mp hc with rfl | hc
      · decide
      · exact (natToText_char_facts hc).2.1
    unfold pyInt
    rw [hstrip]
    simp [parseDigitsNat_natToText]
    rw [abs_of_neg hneg, neg_neg]
  · rw [if_neg hneg, pyInt_natToText]
    congr 1
    omega

theorem pyIntE_intToText (i : Int) : pyIntE (intToText i) = .ok i := by
  unfold pyIntE
  rw [pyInt_intToText]

theorem pyIntE_natToText (n : Nat) : pyIntE (natToText n) = .ok ((n : Int)) := by
  unfold pyIntE
  rw [pyInt_natToText]

theorem splitOnChar_ne_nil (c : Char) (l : Text) : splitOnChar c l ≠ [] := by
  cases l with
  | nil => simp [splitOnChar]
  | cons a rest =>
    simp only [splitOnChar]
    rcases h : splitOnChar c rest with _ | ⟨g, gs⟩
    · simp
    · by_cases hac : a = c <;> simp [hac]

theorem splitOnChar_no_sep {c : Char} {l : Text} (h : c ∉ l) : splitOnChar c l = [l] := by
  induction l with
  | nil => rfl
  | cons a rest ih =>
    have hac : a ≠ c := fun e => h (e ▸ List.mem_cons_self a rest)
    have hrest : c ∉ rest := fun e => h (List.mem_cons_of_mem a e)
    simp only [splitOnChar, ih hrest]
    rw [if_neg hac]

theorem splitOnChar_append {c : Char} {p l : Text} (hp : c ∉ p) {g : Text} {gs : List Text}
    (h : splitOnChar c l = g :: gs) : splitOnChar c (p ++ l) = (p ++ g) :: gs := by
  induction p with
  | nil => simpa using h
  | cons a p ih =>
    have hac : a ≠ c := fun e => hp (e ▸ List.mem_cons_self a p)
    have hp' : c ∉ p := fun e => hp (List.mem_cons_of_mem a e)
    rw [List.cons_append]
    simp only [splitOnChar]
    rw [ih hp']
    simp [hac]

theorem splitOnChar_joinWith {c : Char} : ∀ {parts : List Text}, parts ≠ [] →
    (∀ p ∈ parts, c ∉ p) → splitOnChar c (joinWith c parts) = parts := by
  intro parts
  induction parts with
  | nil => intro h; exact absurd rfl h
  | cons p ps ih =>
    intro _ hmem
    cases ps with
    | nil =>
      simp only [joinWith]
      exact splitOnChar_no_sep (hmem p (by simp))
    | cons q qs =>
      have hjoin : joinWith c (p :: q :: qs) = p ++ c :: joinWith c (q :: qs) := rfl
      rw [hjoin]
      have hrec : splitOnChar c (joinWith c (q :: qs)) = q :: qs :=
        ih (by simp) (fun x hx => hmem x (List.mem_cons_of_mem p hx))
      have hcons : splitOnChar c (c :: joinWith c (q :: qs)) = [] :: q :: qs := by
        simp only [splitOnChar, hrec]
        simp
      have := splitOnChar_append (hmem p (by simp)) hcons
      simpa using this

theorem mem_joinWith {c : Char} {x : Char} : ∀ {parts : List Text},
    x ∈ joinWith c parts → x = c ∨ ∃ p ∈ parts, x ∈ p := by
  intro parts
  induction parts with
  | nil => intro h; simp [joinWith] at h
  | cons p ps ih =>
    intro h
    cases ps with
    | nil => exact Or.inr ⟨p, by simp, by simpa [joinWith] using h⟩
    | cons q qs =>
      rw [show joinWith c (p :: q :: qs) = p ++ c :: joinWith c (q :: qs) from rfl,
        List.mem_append] at h
      rcases h with h | h
      · exact Or.inr ⟨p, by simp, h⟩
      · rcases List.mem_cons.mp h with rfl | h
        · exact Or.inl rfl
        · rcases ih h with h | ⟨r, hr, hxr⟩
          · exact Or.inl h
          · exact Or.inr ⟨r, List.mem_cons_of_mem _ hr, hxr⟩

theorem parseGroup_natToText (x : Int) (hx : 0 ≤ x) : parseGroup (intToText x) = .ok [x] := by
  have hrepr : intToText x = natToText x.toNat := by
    unfold intToText
    rw [if_neg (by omega)]
  rw [hrepr]
  unfold parseGroup
  rw [if_neg (fun hmem => (natToText_char_facts hmem).2.2.2.1 rfl),
    if_neg (natToText_ne_nil _), pyIntE_natToText, except_bind_ok]
  congr 2
  omega

theorem commaDashGroups_map (l : List Int) (h : ∀ x ∈ l, 0 ≤ x) :
    commaDashGroups (l.map intToText) = .ok l := by
  induction l with
  | nil => rfl
  | cons x xs ih =>
    simp only [List.map_cons, commaDashGroups]
    rw [parseGroup_natToText x (h x (by simp)), except_bind_ok,
      ih (fun y hy => h y (by simp [hy])), except_bind_ok]
    simp

theorem commaDash_roundtrip_aux (l : List Int) (h : ∀ x ∈ l, 0 ≤ x) :
    CommaDashSetFile.sanitize_get (commaDashEncode l) = .ok l.toFinset := by
  cases l with
  | nil => decide
  | cons x xs =>
    have hchars : ∀ p ∈ (x :: xs).map intToText, ∀ ch ∈ p,
        ch.isWhitespace = false ∧ ch ≠ ',' := by
      intro p hp ch hch
      obtain ⟨y, hy, rfl⟩ := List.mem_map.mp hp
      have hrepr : intToText y = natToText y.toNat := by
        unfold intToText
        rw [if_neg (by have := h y hy; omega)]
      rw [hrepr] at hch
      have hf := natToText_char_facts hch
      exact ⟨hf.2.1, hf.2.2.1⟩
    unfold commaDashEncode
    rw [if_neg (by simp)]
    unfold CommaDashSetFile.sanitize_get
    rw [pyStrip_eq_self ?hws]
    case hws =>
      intro c hc
      rcases mem_joinWith hc with rfl | ⟨p, hp, hcp⟩
      · decide
      · exact (hchars p hp c hcp).1
    rw [splitOnChar_joinWith (by simp) (fun p hp hcm => (hchars p hp ',' hcm).2 rfl),
      commaDashGroups_map _ h, except_bind_ok]

theorem parseGroup_dash (a b : Nat) :
    parseGroup (natToText a ++ '-' :: natToText b) =
      .ok (intRange ((a : Int)) ((b : Int) + 1)) := by
  unfold parseGroup
  rw [if_pos (by rw [List.mem_append, List.mem_cons]; exact Or.inr (Or.inl rfl))]
  have hsplit : splitOnChar '-' (natToText a ++ '-' :: natToText b) =
      [natToText a, natToText b] := by
    have hj : joinWith '-' [natToText a, natToText b] =
        natToText a ++ '-' :: natToText b := by simp [joinWith]
    rw [← hj]
    apply splitOnChar_joinWith (by simp)
    intro p hp hdash
    rcases List.mem_cons.mp hp with rfl | hp
    · exact (natToText_char_facts hdash).2.2.2.1 rfl
    · rcases List.mem_cons.mp hp with rfl | hp
      · exact (natToText_char_facts hdash).2.2.2.1 rfl
      · simp at hp
  rw [hsplit]
  simp only [pyIntE_natToText, except_bind_ok]

theorem commaDash_decode_aux (a b : Nat) :
    CommaDashSetFile.sanitize_get (natToText a ++ '-' :: natToText b) =
      .ok (intRange ((a : Int)) ((b : Int) + 1)).toFinset := by
  unfold CommaDashSetFile.sanitize_get
  have hmem : ∀ c ∈ natToText a ++ '-' :: natToText b,
      c.isWhitespace = false ∧ c ≠ ',' := by
    intro c hc
    rw [List.mem_append, List.mem_cons] at hc
    rcases hc with hc | rfl | hc
    · have hf := natToText_char_facts hc; exact ⟨hf.2.1, hf.2.2.1⟩
    · exact ⟨by decide, by decide⟩
    · have hf := natToText_char_facts hc; exact ⟨hf.2.1, hf.2.2.1⟩
  rw [pyStrip_eq_self (fun c hc => (hmem c hc).1),
    splitOnChar_no_sep (fun hc => (hmem ',' hc).2 rfl)]
  simp only [commaDashGroups, parseGroup_dash, except_bind_ok]
  simp

theorem natOfBits_lt (v : List Bool) : natOfBits v < 2 ^ v.length := by
  induction v with
  | nil => simp [natOfBits]
  | cons b bs ih =>
    simp only [natOfBits, List.length_cons, pow_succ]
    cases b <;> simp <;> omega

theorem natOfBits_ge_of_getD {v : List Bool} {i : Nat} (h : v.getD i false = true) :
    2 ^ i ≤ natOfBits v := by
  induction v generalizing i with
  | nil => simp [List.getD] at h
  | cons b bs ih =>
    cases i with
    | zero =>
      rw [List.getD_cons_zero] at h
      simp only [natOfBits, h, if_true, pow_zero]
      omega
    | succ i =>
      rw [List.getD_cons_succ] at h
      have := ih h
      simp only [natOfBits, pow_succ]
      cases b <;> simp <;> omega

theorem range_map_bits (v : List Bool) :
    (List.range v.length).map (fun i => decide (natOfBits v / 2 ^ i % 2 = 1)) = v := by
  induction v with
  | nil => rfl
  | cons b bs ih =>
    have hdiv2 : natOfBits (b :: bs) / 2 = natOfBits bs := by
      cases b
      · simp [natOfBits]
      · simp [natOfBits]; omega
    have hmod2 : natOfBits (b :: bs) % 2 = (if b then 1 else 0) := by
      cases b <;> simp [natOfBits]
    rw [List.length_cons, List.range_succ_eq_map, List.map_cons, List.map_map]
    have hhead : decide (natOfBits (b :: bs) / 2 ^ 0 % 2 = 1) = b := by
      rw [pow_zero, Nat.div_one, hmod2]
      cases b <;> simp
    have htail : ((fun i => decide (natOfBits (b :: bs) / 2 ^ i % 2 = 1)) ∘ Nat.succ) =
        (fun i => decide (natOfBits bs / 2 ^ i % 2 = 1)) := by
      funext i
      have h2 : natOfBits (b :: bs) / 2 ^ (i + 1) = natOfBits bs / 2 ^ i := by
        rw [pow_succ', ← Nat.div_div_eq_div_mul, hdiv2]
      simp only [Function.comp_apply, Nat.succ_eq_add_one, h2]
    rw [hhead, htail, ih]

theorem fdiv_emod_bits (n k : Nat) :
    decide ((((n : Nat) : Int).fdiv (2 ^ k)).emod 2 = 1) = decide (n / 2 ^ k % 2 = 1) := by
  have hpow : ((2 : Int) ^ k) = (((2 ^ k : Nat) : Nat) : Int) := by push_cast; ring
  have h1 : ((n : Nat) : Int).fdiv (2 ^ k) = ((n / 2 ^ k : Nat) : Int) := by
    rw [hpow, ← Int.ofNat_fdiv]
  have h2 : ((n / 2 ^ k : Nat) : Int).emod 2 = ((n / 2 ^ k % 2 : Nat) : Int) :=
    (Int.ofNat_emod _ 2).symm
  rw [h1, h2]
  rw [decide_eq_decide]
  constructor
  · intro h; exact_mod_cast h
  · intro h; exact_mod_cast congrArg (fun m => ((m : Nat) : Int)) h

theorem getD_true_lt_length {v : List Bool} {i : Nat} (h : v.getD i false = true) :
    i < v.length := by
  by_contra hle
  rw [List.getD_eq_default _ _ (by omega)] at h
  exact Bool.false_ne_true h

theorem hexDigitCount_ofNat {n : Nat} (hn : n ≠ 0) :
    hexDigitCount ((n : Nat) : Int) = Nat.log 16 n + 1 := by
  unfold hexDigitCount
  rw [if_neg (by omega : ¬ (((n : Nat) : Int) < 0))]
  rw [show (((n : Nat) : Int)).natAbs = n from rfl]
  rw [if_neg hn, natDigits_eq (by omega), Nat.digits_len 16 n (by omega) hn]
  omega

theorem bitLength_eq_length {n len : Nat} (h8 : len % 8 = 0) (hlen : 8 ≤ len)
    (hlow : 2 ^ (len - 8) ≤ n) (hhigh : n < 2 ^ len) :
    BitFieldFile.bitLength ((n : Nat) : Int) = len := by
  have hn : n ≠ 0 := by
    have : 0 < 2 ^ (len - 8) := Nat.pos_pow_of_pos _ (by omega)
    omega
  unfold BitFieldFile.bitLength
  rw [hexDigitCount_ofNat hn]
  obtain ⟨k, rfl⟩ : ∃ k, len = 8 * k := ⟨len / 8, by omega⟩
  have hk : 1 ≤ k := by omega
  have hlog_lo : 2 * k - 2 ≤ Nat.log 16 n := by
    rw [← Nat.pow_le_iff_le_log (by omega) hn]
    calc (16 : Nat) ^ (2 * k - 2) = 2 ^ (4 * (2 * k - 2)) := by
          rw [show (16 : Nat) = 2 ^ 4 from rfl, ← pow_mul]
    _ = 2 ^ (8 * k - 8) := by congr 1; omega
    _ ≤ n := hlow
  have hlog_hi : Nat.log 16 n < 2 * k := by
    apply Nat.log_lt_of_lt_pow hn
    calc n < 2 ^ (8 * k) := hhigh
    _ = 2 ^ (4 * (2 * k)) := by congr 1; omega
    _ = 16 ^ (2 * k) := by rw [show (16 : Nat) = 2 ^ 4 from rfl, ← pow_mul]
  omega

theorem bitField_roundtrip_aux (v : List Bool) (h8 : v.length % 8 = 0) (hne : v ≠ [])
    (hcond : v.length = 8 ∨ ∃ i, v.length - 8 ≤ i ∧ v.getD i false = true) :
    BitFieldFile.sanitize_get (intToText (natOfBits v)) = .ok v := by
  have hlen0 : v.length ≠ 0 := fun h => hne (List.eq_nil_of_length_eq_zero h)
  have hlen8 : 8 ≤ v.length := by omega
  have hbl : BitFieldFile.bitLength ((natOfBits v : Nat) : Int) = v.length := by
    by_cases hzero : natOfBits v = 0
    · have hlen : v.length = 8 := by
        rcases hcond with h | ⟨i, hi, hbit⟩
        · exact h
        · have h1 := natOfBits_ge_of_getD hbit
          have h2 : 0 < 2 ^ i := Nat.pos_pow_of_pos _ (by omega)
          omega
      rw [hzero, hlen]
      decide
    · apply bitLength_eq_length h8 hlen8 ?_ (natOfBits_lt v)
      rcases hcond with h | ⟨i, hi, hbit⟩
      · have hone : (2 : Nat) ^ (v.length - 8) = 1 := by rw [h]; norm_num
        omega
      · calc (2 : Nat) ^ (v.length - 8) ≤ 2 ^ i := Nat.pow_le_pow_right (by omega) hi
        _ ≤ natOfBits v := natOfBits_ge_of_getD hbit
  unfold BitFieldFile.sanitize_get
  rw [pyIntE_intToText, except_bind_ok, hbl,
    List.map_congr_left (fun i _ => fdiv_emod_bits (natOfBits v) i)]
  exact congrArg Except.ok (range_map_bits v)

/-- C3 counterexample: the claimed round trip fails at the sentinel itself.
`IntegerFile` encodes the integer `-1` as the text `-1`, but decoding that
text yields the absent value (`None`), not `-1`. -/
theorem integerFile_sentinel_roundtrip_cex :
    IntegerFile.sanitize_get (IntegerFile.encodeText (some (-1))) = .ok none ∧
    (Except.ok (none : Option Int) : Except SpecError (Option Int)) ≠ .ok (some (-1)) := by
  constructor
  · decide
  · decide

/-- C3 (amended): for every integer other than the sentinel `-1`,
`IntegerFile.decode (IntegerFile.encode n) = n`; the sentinel round-trips to
the absent value instead; `encode` of the absent value yields the text `-1`
and decoding the text `-1` yields the absent value. -/
theorem integerFile_sentinel_roundtrip :
    (∀ n : Int, n ≠ -1 →
      IntegerFile.sanitize_get (IntegerFile.encodeText (some n)) = .ok (some n)) ∧
    IntegerFile.encodeText none = "-1".data ∧
    IntegerFile.sanitize_get "-1".data = .ok none ∧
    IntegerFile.sanitize_get (IntegerFile.encodeText (some (-1))) = .ok none := by
  refine ⟨?_, by decide, by decide, by decide⟩
  intro n h
  unfold IntegerFile.sanitize_get IntegerFile.encodeText
  rw [show (some n).getD (-1) = n from rfl, pyIntE_intToText, except_bind_ok, if_neg h]

/-- Witness for C3: the round trip at the concrete integer 7. -/
theorem integerFile_sentinel_roundtrip_w :
    IntegerFile.sanitize_get (IntegerFile.encodeText (some 7)) = .ok (some 7) :=
  integerFile_sentinel_roundtrip.1 7 (by decide)

/-- C4: for every set of non-negative integers (given by an enumeration `l`
of its elements), decoding the encoded text yields exactly that set; the
empty set encodes as a single space character, and decoding a single space
yields the empty set. -/
theorem commaDashSetFile_set_roundtrip :
    (∀ l : List Int, (∀ x ∈ l, 0 ≤ x) →
      CommaDashSetFile.sanitize_get (commaDashEncode l) = .ok l.toFinset) ∧
    commaDashEncode [] = [' '] ∧
    CommaDashSetFile.sanitize_get [' '] = .ok (∅ : Finset Int) :=
  ⟨commaDash_roundtrip_aux, rfl, by decide⟩

/-- Witness for C4: the round trip on the concrete set with elements 2
and 5. -/
theorem commaDashSetFile_set_roundtrip_w :
    CommaDashSetFile.sanitize_get (commaDashEncode [2, 5]) = .ok ([2, 5] : List Int).toFinset :=
  commaDashSetFile_set_roundtrip.1 [2, 5] (by decide)

/-- C5: a comma group `start-end` of decimal numbers decodes to the full
inclusive integer range (stated for arbitrary naturals `a`, `b`); the
documented example decodes to the set 1, 2, 3, 6, 11, 12, 13, 14, 15; and an
empty group is ignored. -/
theorem commaDashSetFile_decode_ranges :
    (∀ a b : Nat, CommaDashSetFile.sanitize_get (natToText a ++ '-' :: natToText b) =
      .ok (intRange ((a : Int)) ((b : Int) + 1)).toFinset) ∧
    CommaDashSetFile.sanitize_get "1-3,6,11-15".data =
      .ok ({1, 2, 3, 6, 11, 12, 13, 14, 15} : Finset Int) ∧
    CommaDashSetFile.sanitize_get "2,,3".data = .ok ({2, 3} : Finset Int) :=
  ⟨commaDash_decode_aux, by decide, by decide⟩

/-- C6 counterexample: the claimed round trip fails for the 16-element
boolean sequence with a single true bit at index 0 — it encodes as the
integer 1, whose decode has only 8 elements. -/
theorem bitFieldFile_decode_roundtrip_cex :
    BitFieldFile.sanitize_get (intToText (natOfBits
      [true, false, false, false, false, false, false, false,
       false, false, false, false, false, false, false, false])) =
      .ok [true, false, false, false, false, false, false, false] ∧
    [true, false, false, false, false, false, false, false] ≠
      [true, false, false, false, false, false, false, false,
       false, false, false, false, false, false, false, false] := by
  constructor
  · decide
  · decide

/-- C6 (amended): decode parses the text as an integer and returns one
boolean per bit, least significant first, with the length rounded up from
the hex-digit count to a multiple of 8; consequently the round trip
reproduces `v` exactly when the length of `v` is its minimal multiple-of-8
bit length: for every `v` of positive length a multiple of 8 that is either
of length exactly 8 or has a true among its last eight entries,
decoding the text of the integer whose bits equal `v` yields `v`.  The
docstring example is also checked: the text `2` decodes to eight booleans
with exactly the second one true. -/
theorem bitFieldFile_decode_roundtrip :
    (∀ v : List Bool, v.length % 8 = 0 → v ≠ [] →
      (v.length = 8 ∨ ∃ i, v.length - 8 ≤ i ∧ v.getD i false = true) →
      BitFieldFile.sanitize_get (intToText (natOfBits v)) = .ok v) ∧
    BitFieldFile.sanitize_get "2".data =
      .ok [false, true, false, false, false, false, false, false] :=
  ⟨bitField_roundtrip_aux, by decide⟩

/-- Witness for C6: the round trip at a concrete 16-element sequence whose
top byte contains a true bit. -/
theorem bitFieldFile_decode_roundtrip_w :
    BitFieldFile.sanitize_get (intToText (natOfBits
      [true, false, false, false, false, false, false, false,
       false, false, false, false, false, false, false, true])) =
      .ok [true, false, false, false, false, false, false, false,
           false, false, false, false, false, false, false, true] :=
  bitFieldFile_decode_roundtrip.1
    [true, false, false, false, false, false, false, false,
     false, false, false, false, false, false, false, true]
    (by decide) (by decide) (Or.inr ⟨15, by decide, by decide⟩)

/-- C1: attempting a read on a write-only accessor, or a write on a
read-only accessor, fails with an access error and performs no I/O on the
owner at all — neither `get_property` nor `set_property` is called. -/
theorem accessor_access_violation {α β : Type} (i : FileInterface α β)
    (g : Text → Text) (v : α) :
    (i.writeonly = true → i.read g = (.error .accessError, [])) ∧
    (i.readonly = true → i.write v = (.error .accessError, [])) := by
  constructor
  · intro h
    unfold FileInterface.read
    rw [if_pos h]
  · intro h
    unfold FileInterface.write
    rw [if_pos h]

/-- Witness for C1: a concrete write-only accessor rejects a read, and a
concrete read-only accessor rejects a write, both without I/O. -/
theorem accessor_access_violation_w :
    sampleWriteonly.read (fun _ => []) = (.error .accessError, []) ∧
    sampleReadonly.write (some []) = (.error .accessError, []) :=
  ⟨(accessor_access_violation sampleWriteonly (fun _ => []) none).1 rfl,
   (accessor_access_violation sampleReadonly (fun _ => []) (some [])).2 rfl⟩

/-- C2: every accessor constructed through `BaseFileInterface.__init__` with
both `readonly=True` and `writeonly=True` fails with a config error, for any
class-level defaults and sanitize hooks; and constructing a `TypedFile`
whose content type is not in the recognized content-type family also fails
with a config error at construction time. -/
theorem accessor_init_config_error :
    (∀ (α β : Type) (clsRo clsWo : Bool) (sg : Text → Except SpecError β)
        (ss : α → Except SpecError (Option Text)) (fn : Text),
      baseInit clsRo clsWo sg ss fn true true = .error .configError) ∧
    (∀ (fn : Text) (ct : ContentTypeClass) (ro wo many : Bool),
      ct.isSubclassOfBase = false → typedFileInit fn ct ro wo many = .error .configError) := by
  constructor
  · intro α β clsRo clsWo sg ss fn
    rfl
  · intro fn ct ro wo many h
    unfold typedFileInit
    rw [if_pos h]

/-- Witness for C2: a both-flags `StrFile` construction fails, and a
`TypedFile` built on a class outside the content-type family fails. -/
theorem accessor_init_config_error_w :
    strFileInit "f".data true true = .error .configError ∧
    typedFileInit "t".data ⟨false, fun s => ⟨s⟩⟩ false false false = .error .configError :=
  ⟨accessor_init_config_error.1 (Option Text) Text false false
      StrFile.sanitize_get StrFile.sanitize_set "f".data,
   accessor_init_config_error.2 "t".data ⟨false, fun s => ⟨s⟩⟩ false false false rfl⟩

/-- C7: `DictFile` decodes the text `a 1` newline `b 2` to the
insertion-ordered mapping sending `a` to 1 and `b` to 2; its encoder joins
the mapping's keys with commas, discarding the values entirely — two
mappings with the same keys encode identically. -/
theorem dictFile_decode_encode :
    DictFile.sanitize_get "a 1\nb 2".data = .ok [("a".data, (1 : Int)), ("b".data, 2)] ∧
    (∀ d : List (Text × Int),
      DictFile.sanitize_set d = .ok (some (joinWith ',' (d.map Prod.fst)))) ∧
    (∀ d₁ d₂ : List (Text × Int), d₁.map Prod.fst = d₂.map Prod.fst →
      DictFile.sanitize_set d₁ = DictFile.sanitize_set d₂) := by
  refine ⟨by decide, fun d => rfl, fun d₁ d₂ h => ?_⟩
  unfold DictFile.sanitize_set
  rw [h]

/-- Witness for C7: two concrete mappings with equal keys and different
values encode to the same text. -/
theorem dictFile_decode_encode_w :
    DictFile.sanitize_set [("a".data, (1 : Int))] = DictFile.sanitize_set [("a".data, 5)] :=
  dictFile_decode_encode.2.2 [("a".data, 1)] [("a".data, 5)] rfl

/-- C8: whenever an accessor's encoder yields the no-op signal (`None`), a
write performs no I/O at all — the call list is empty, so the owner's
backing store is unchanged. -/
theorem write_encode_none_no_io {α β : Type} (i : FileInterface α β) (v : α)
    (s : Text → Text) (h : i.sanitize_set v = .ok none) :
    (i.write v).2 = [] ∧ applyOps s (i.write v).2 = s := by
  have hops : (i.write v).2 = [] := by
    unfold FileInterface.write
    by_cases hro : i.readonly = true
    · rw [if_pos hro]
    · rw [if_neg hro, h]
  exact ⟨hops, by rw [hops]; rfl⟩

/-- Witness for C8: writing the absent value through a concrete `StrFile`
performs no I/O. -/
theorem write_encode_none_no_io_w :
    (sampleStrFile.write none).2 = [] ∧
    applyOps (fun _ => []) (sampleStrFile.write none).2 = (fun _ => []) :=
  write_encode_none_no_io sampleStrFile none (fun _ => []) rfl

/-- C9: a read never mutates the owner — every I/O call it makes is a
`get_property` call (never `set_property`), and the owner's backing store is
unchanged by the calls, regardless of the accessor and the raw text. -/
theorem read_never_mutates {α β : Type} (i : FileInterface α β)
    (g : Text → Text) (s : Text → Text) :
    (∀ op ∈ (i.read g).2, ∃ fn, op = IOOp.get fn) ∧ applyOps s (i.read g).2 = s := by
  unfold FileInterface.read
  by_cases h : i.writeonly = true
  · rw [if_pos h]
    exact ⟨by simp, rfl⟩
  · rw [if_neg h]
    refine ⟨?_, rfl⟩
    intro op hop
    simp only [List.mem_singleton] at hop
    exact ⟨i.filename, hop⟩

/-- C10: decoding the empty text with `DictFile` or `DictAndFlagFile` is a
decode error rather than an empty mapping — splitting the empty text on
newlines yields one empty line, which does not split into exactly two
tokens. -/
theorem dict_empty_decode_error :
    DictFile.sanitize_get [] = .error .decodeError ∧
    DictAndFlagFile.sanitize_get [] = .error .decodeError :=
  ⟨rfl, rfl⟩
